import Mathlib

/-!
Verification of the repository-structure-and-dependency analyzer
(`github_repo_summarizer.py`, class `GitHubRepoAnalyzer`).

The Python code is shallowly embedded: paths are `/`-separated strings and the
POSIX `os.path` helpers used by the code (`join`, `normpath`, `dirname`,
`splitext`, `relpath`) are translated from CPython's `posixpath` module.  The
filesystem is abstracted by oracles: `ex : String → Bool` models
`os.path.exists`, `read : String → Option String` models opening and reading a
file (with `none` for the `UnicodeDecodeError/IOError` case), and a directory
walk is a list of `(root, files)` pairs as produced by `os.walk`.  The generic
regular-expression import extraction (`re.findall` over the per-language
pattern lists) is abstracted by an oracle
`g : String → String → List String` mapping a language tag and file content to
the matched raw import strings; the four Terraform-specific patterns of
`_analyze_terraform_dependencies` are implemented concretely, since the claims
evaluate them on concrete content.
-/

set_option maxRecDepth 40000

/-- Python whitespace class `\s` (ASCII part, which is what the scanned
sources contain). -/
def isPySpace (c : Char) : Bool :=
  c = ' ' || c = '\t' || c = '\n' || c = '\r' || c = '\x0b' || c = '\x0c'

/-- `s.startswith('.')` for a Python string. -/
def pyStartsWithDot (s : String) : Bool :=
  match s.data with
  | '.' :: _ => true
  | _ => false

/-- Python `str.split('/')` on the character list. -/
def splitSlash : List Char → List (List Char)
  | [] => [[]]
  | c :: cs =>
    match splitSlash cs with
    | r :: rs => if c = '/' then [] :: r :: rs else (c :: r) :: rs
    | [] => [[]]

/-- Python `str.split('/')` on strings. -/
def splitSlashStr (s : String) : List String :=
  (splitSlash s.data).map String.mk

/-- `'/'.join(parts)`. -/
def joinSlash : List String → String
  | [] => ""
  | [s] => s
  | s :: rest => s ++ "/" ++ joinSlash rest

/-- Does the string end with `'/'`? -/
def pyEndsWithSlash (s : String) : Bool :=
  match s.data.getLast? with
  | some '/' => true
  | _ => false

/-- `posixpath.join(a, b)` (two arguments): an absolute second argument
discards the first. -/
def pyJoin (a b : String) : String :=
  if b.data.head? = some '/' then b
  else if a = "" ∨ pyEndsWithSlash a then a ++ b
  else a ++ "/" ++ b

/-- `posixpath.normpath`: collapse `.`, `..` and duplicate separators,
keeping a double leading slash (POSIX-special) but collapsing three or
more. -/
def pyNormpath (p : String) : String :=
  if p = "" then "." else
  let slashes : Nat :=
    if p.data.take 3 = ['/', '/', '/'] then 1
    else if p.data.take 2 = ['/', '/'] then 2
    else if p.data.head? = some '/' then 1
    else 0
  let comps := splitSlashStr p
  let newComps := comps.foldl (fun acc comp =>
    if comp = "" ∨ comp = "." then acc
    else if comp ≠ ".." ∨ (slashes = 0 ∧ acc = []) ∨ (acc ≠ [] ∧ acc.getLast? = some "..")
      then acc ++ [comp]
    else if acc ≠ [] then acc.dropLast else acc) []
  let s := String.mk (List.replicate slashes '/') ++ joinSlash newComps
  if s = "" then "." else s

/-- `posixpath.dirname`: everything before the final slash, with trailing
slashes stripped unless the head is all slashes. -/
def pyDirname (p : String) : String :=
  let cs := p.data
  let afterLen := (cs.reverse.takeWhile (fun c => c ≠ '/')).length
  if afterLen = cs.length then ""
  else
    let head := cs.take (cs.length - afterLen)
    if head.all (fun c => c = '/') then String.mk head
    else String.mk (head.reverse.dropWhile (fun c => c = '/')).reverse

/-- `posixpath.splitext(name)[1]` for a bare file name: the suffix from the
last dot, unless every character before that dot is itself a dot. -/
def pySplitextExt (name : String) : String :=
  let rev := name.data.reverse
  let extRev := rev.takeWhile (fun c => c ≠ '.')
  if extRev.length = rev.length then ""
  else
    let rest := rev.drop (extRev.length + 1)
    if rest.all (fun c => c = '.') then ""
    else String.mk ('.' :: extRev.reverse)

/-- Python `str.lower` (ASCII, as applied to file extensions). -/
def pyLower (s : String) : String :=
  String.mk (s.data.map Char.toLower)

/-- Length of the common prefix of two component lists
(`os.path.commonprefix` on split paths). -/
def commonPrefixLen : List String → List String → Nat
  | a :: as, b :: bs => if a = b then commonPrefixLen as bs + 1 else 0
  | _, _ => 0

/-- Non-empty components of `posixpath.abspath(p)` computed against a current
working directory `cwd`. -/
def absParts (cwd p : String) : List String :=
  (splitSlashStr (pyNormpath (pyJoin cwd p))).filter (fun c => c ≠ "")

/-- `posixpath.relpath(p, s)` with explicit current working directory. -/
def pyRelpath (cwd p s : String) : String :=
  let pl := absParts cwd p
  let sl := absParts cwd s
  let i := commonPrefixLen sl pl
  let parts := List.replicate (sl.length - i) ".." ++ pl.drop i
  if parts = [] then "." else joinSlash parts

/-! ## Analyzer configuration and language classifier -/

/-- `self.ignored_dirs` from `GitHubRepoAnalyzer.__init__`. -/
def ignoredDirs : List String :=
  [".git", "node_modules", "__pycache__", "venv", ".env", ".venv"]

/-- The `'files'` entry of `self.language_patterns`, in dictionary insertion
order. -/
def languageFiles : List (String × List String) :=
  [("python", [".py"]),
   ("javascript", [".js", ".jsx", ".ts", ".tsx"]),
   ("java", [".java"]),
   ("go", [".go"]),
   ("terraform", [".tf", ".tfvars"])]

/-- `_get_language_from_extension`: lowercase the extension and return the
first language whose file list contains it. -/
def getLanguageFromExtension (filename : String) : Option String :=
  let extension := pyLower (pySplitextExt filename)
  languageFiles.findSome? (fun le =>
    if le.2.contains extension then some le.1 else none)

/-- The per-directory keep condition of the structure walk
(`_build_file_structure`, line `dirs[:] = [d for d in dirs if d not in
self.ignored_dirs and not d.startswith('.')]`). -/
def structKeep (d : String) : Bool :=
  !(ignoredDirs.contains d) && !(pyStartsWithDot d)

/-- Python's substring containment `needle in hay`. -/
def strContains (hay needle : String) : Bool :=
  go needle.data hay.data
where
  go (n : List Char) : List Char → Bool
    | [] => n.isEmpty
    | c :: t => n.isPrefixOf (c :: t) || go n t

/-- The skip condition of the dependency walk (`_analyze_dependencies`) and of
the histogram walk (`_count_file_types`):
`any(ignored in root for ignored in self.ignored_dirs)` — a substring test
against the full root path. -/
def depSkipRoot (root : String) : Bool :=
  ignoredDirs.any (fun ignored => strContains root ignored)

/-! ## The filesystem tree and the two walks

`os.walk` is modelled over a rose tree of directories.  The recursion is
bounded by an explicit `fuel` argument (any fuel at least the tree depth gives
the full walk); this keeps every definition structurally recursive and
executable. -/

/-- A directory: name, subdirectories, plain files at this level. -/
inductive FsTree where
  | node : String → List FsTree → List String → FsTree

def FsTree.nameOf : FsTree → String
  | .node n _ _ => n

def FsTree.filesOf : FsTree → List String
  | .node _ _ fs => fs

/-- `os.walk` without pruning, as seen by `_analyze_dependencies` and
`_count_file_types` (their `continue` skips processing but not descent). -/
def walkFullFuel : Nat → String → FsTree → List (String × List String)
  | 0, _, _ => []
  | fuel + 1, path, .node _ subs files =>
    (path, files) :: (subs.map (fun c => walkFullFuel fuel (pyJoin path c.nameOf) c)).flatten

/-- `os.walk` as pruned by `_build_file_structure`:
`dirs[:] = [d for d in dirs if d not in self.ignored_dirs and not
d.startswith('.')]` removes the pruned directories from descent. -/
def walkStructFuel : Nat → String → FsTree → List (String × List String)
  | 0, _, _ => []
  | fuel + 1, path, .node _ subs files =>
    let kept := subs.filter (fun c => structKeep c.nameOf)
    (path, files) :: (kept.map (fun c => walkStructFuel fuel (pyJoin path c.nameOf) c)).flatten

/-! ## The path resolver (`_resolve_absolute_import`) -/

/-- `import_name.replace('.', os.sep)`. -/
def dotsToSep (s : String) : String :=
  String.mk (s.data.map (fun c => if c = '.' then '/' else c))

/-- `possible_extensions` from `_resolve_absolute_import`. -/
def possibleExtensions : List String :=
  [".py", ".js", ".tsx", ".jsx", ".ts", ".java", ".go", ".tf"]

/-- The normalized source-file path (`os.path.normpath(os.path.join(
self.local_path, source_file))`). -/
def sourceFileAbs (localPath sourceFile : String) : String :=
  pyNormpath (pyJoin localPath sourceFile)

/-- The body of the extension loop of `_resolve_absolute_import`: test the
direct file `base_path + ext`, and for the package-style extensions also the
package index file, in exactly this order. -/
def tryExt (ex : String → Bool) (basePath ext : String) : Option String :=
  let potentialPath := basePath ++ ext
  if ex potentialPath then some (pyNormpath potentialPath)
  else if ext = ".py" ∨ ext = ".js" then
    let indexFile := if ext = ".py" then "__init__.py" else "index.js"
    let packagePath := pyJoin basePath indexFile
    if ex packagePath then some (pyNormpath packagePath) else none
  else none

/-- `_resolve_absolute_import(source_file, import_name)` over the
`os.path.exists` oracle `ex`.  The two search bases are the source file's
directory and the repository root; after the nested loops, a raw import
starting with a dot is tried directly against the filesystem. -/
def resolveAbsoluteImport (ex : String → Bool) (localPath sourceFile importName : String) :
    Option String :=
  let sourceDir := pyDirname (sourceFileAbs localPath sourceFile)
  let relativePath := dotsToSep importName
  let searchPaths := [pyJoin sourceDir relativePath, pyJoin localPath relativePath]
  match searchPaths.findSome? (fun basePath =>
      possibleExtensions.findSome? (fun ext => tryExt ex basePath ext)) with
  | some p => some p
  | none =>
    if pyStartsWithDot importName then
      let potentialPath := pyNormpath (pyJoin sourceDir importName)
      if ex potentialPath then some potentialPath else none
    else none

/-! ## Terraform pattern scanners (`_analyze_terraform_dependencies`)

Hand-rolled deterministic matchers for the four regular expressions used on
Terraform files.  Each pattern starts with a literal keyword and each greedy
character class excludes the character that follows it, so greedy matching
with no backtracking coincides with Python `re` semantics.  `scanAll`
reproduces `re.findall`: try a match at every position, left to right,
non-overlapping; the fuel argument (instantiated with the content length) only
serves termination, since every matcher consumes at least one character. -/

/-- Consume an exact literal. -/
def matchLit : List Char → List Char → Option (List Char)
  | [], cs => some cs
  | l :: ls, c :: cs => if c = l then matchLit ls cs else none
  | _ :: _, [] => none

/-- Consume one or more characters satisfying `p` (greedy `+`). -/
def matchPlus (p : Char → Bool) (cs : List Char) : Option (List Char) :=
  let tk := cs.takeWhile p
  if tk.isEmpty then none else some (cs.dropWhile p)

/-- Capture one or more characters satisfying `p` (greedy `(+)` group). -/
def capPlus (p : Char → Bool) (cs : List Char) : Option (List Char × List Char) :=
  let tk := cs.takeWhile p
  if tk.isEmpty then none else some (tk, cs.dropWhile p)

/-- `re.findall` driver: leftmost, non-overlapping matches. -/
def scanAll {α : Type} (m : List Char → Option (α × List Char)) :
    Nat → List Char → List α
  | 0, _ => []
  | _, [] => []
  | fuel + 1, c :: cs =>
    match m (c :: cs) with
    | some (a, rest) => a :: scanAll m fuel rest
    | none => scanAll m fuel cs

/-- `re.search` driver: first match only. -/
def scanFirst {α : Type} (m : List Char → Option (α × List Char)) :
    Nat → List Char → Option α
  | 0, _ => none
  | _, [] => none
  | fuel + 1, c :: cs =>
    match m (c :: cs) with
    | some (a, _) => some a
    | none => scanFirst m fuel cs

/-- One match of `module\s+"([^"]+)"\s+{([^}]+)}` (with `re.DOTALL`). -/
def matchModuleAt (cs : List Char) : Option ((String × String) × List Char) := do
  let r ← matchLit "module".data cs
  let r ← matchPlus isPySpace r
  let r ← matchLit ['\"'] r
  let (name, r) ← capPlus (fun c => c ≠ '\"') r
  let r ← matchLit ['\"'] r
  let r ← matchPlus isPySpace r
  let r ← matchLit ['{'] r
  let (body, r) ← capPlus (fun c => c ≠ '}') r
  let r ← matchLit ['}'] r
  return ((String.mk name, String.mk body), r)

/-- One match of `resource\s+"([^"]+)"\s+"([^"]+)"\s+{`. -/
def matchResourceAt (cs : List Char) : Option ((String × String) × List Char) := do
  let r ← matchLit "resource".data cs
  let r ← matchPlus isPySpace r
  let r ← matchLit ['\"'] r
  let (ty, r) ← capPlus (fun c => c ≠ '\"') r
  let r ← matchLit ['\"'] r
  let r ← matchPlus isPySpace r
  let r ← matchLit ['\"'] r
  let (name, r) ← capPlus (fun c => c ≠ '\"') r
  let r ← matchLit ['\"'] r
  let r ← matchPlus isPySpace r
  let r ← matchLit ['{'] r
  return ((String.mk ty, String.mk name), r)

/-- One match of `data\s+"([^"]+)"\s+"([^"]+)"\s+{`. -/
def matchDataAt (cs : List Char) : Option ((String × String) × List Char) := do
  let r ← matchLit "data".data cs
  let r ← matchPlus isPySpace r
  let r ← matchLit ['\"'] r
  let (ty, r) ← capPlus (fun c => c ≠ '\"') r
  let r ← matchLit ['\"'] r
  let r ← matchPlus isPySpace r
  let r ← matchLit ['\"'] r
  let (name, r) ← capPlus (fun c => c ≠ '\"') r
  let r ← matchLit ['\"'] r
  let r ← matchPlus isPySpace r
  let r ← matchLit ['{'] r
  return ((String.mk ty, String.mk name), r)

/-- The identifier class `[a-zA-Z0-9_-]` of the variable-reference pattern. -/
def isVarChar (c : Char) : Bool :=
  c.isAlpha || c.isDigit || c = '_' || c = '-'

/-- One match of `var\.([a-zA-Z0-9_-]+)`. -/
def matchVarAt (cs : List Char) : Option (String × List Char) := do
  let r ← matchLit "var.".data cs
  let (name, r) ← capPlus isVarChar r
  return (String.mk name, r)

/-- One match of `source\s*=\s*"([^"]+)"`. -/
def matchSourceAt (cs : List Char) : Option (String × List Char) := do
  let r ← matchLit "source".data cs
  let r := r.dropWhile isPySpace
  let r ← matchLit ['='] r
  let r := r.dropWhile isPySpace
  let r ← matchLit ['\"'] r
  let (src, r) ← capPlus (fun c => c ≠ '\"') r
  let r ← matchLit ['\"'] r
  return (String.mk src, r)

/-- `re.findall(r'module\s+"([^"]+)"\s+{([^}]+)}', content, re.DOTALL)`. -/
def findModuleBlocks (content : String) : List (String × String) :=
  scanAll matchModuleAt content.data.length content.data

/-- `re.findall(r'resource\s+"([^"]+)"\s+"([^"]+)"\s+{', content)`. -/
def findResourceBlocks (content : String) : List (String × String) :=
  scanAll matchResourceAt content.data.length content.data

/-- `re.findall(r'data\s+"([^"]+)"\s+"([^"]+)"\s+{', content)`. -/
def findDataBlocks (content : String) : List (String × String) :=
  scanAll matchDataAt content.data.length content.data

/-- `re.findall(r'var\.([a-zA-Z0-9_-]+)', content)`. -/
def findVarRefs (content : String) : List String :=
  scanAll matchVarAt content.data.length content.data

/-- `re.search(r'source\s*=\s*"([^"]+)"', module_content)`. -/
def findSourceAttr (body : String) : Option String :=
  scanFirst matchSourceAt body.data.length body.data

/-- `_analyze_terraform_dependencies`, parametrized by the resolver
`r = self._resolve_absolute_import(rel_path, ·)`: module tokens (only when the
module's `source` resolves to a truthy path), then resource tokens, then data
tokens, then variable-reference tokens. -/
def terraformDeps (r : String → Option String) (content : String) : List String :=
  let moduleToks := (findModuleBlocks content).filterMap (fun nb =>
    match findSourceAttr nb.2 with
    | some moduleSource =>
      match r moduleSource with
      | some p => if p = "" then none else some ("module:" ++ nb.1 ++ ":" ++ p)
      | none => none
    | none => none)
  let resourceToks := (findResourceBlocks content).map
    (fun tn => "resource:" ++ tn.1 ++ ":" ++ tn.2)
  let dataToks := (findDataBlocks content).map
    (fun tn => "data:" ++ tn.1 ++ ":" ++ tn.2)
  let varToks := (findVarRefs content).map (fun v => "var:" ++ v)
  moduleToks ++ resourceToks ++ dataToks ++ varToks

/-- The Terraform content of the extraction scenario in the specification. -/
def tfScenarioContent : String :=
  "module \"vpc\" \x7b\n  source = \"./modules/vpc\"\n\x7d\n\nresource \"aws_vpc\" \"main\" \x7b\n  cidr_block = var.cidr_block\n\x7d\n\ndata \"aws_ami\" \"ubuntu\" \x7b\n\x7d\n\ntags = var.cidr_block\n"

/-! ## The dependency map (`_analyze_dependencies`)

`self.dependencies` is a `defaultdict(list)` whose keys are only ever touched
via `self.dependencies[rel_path].append(tok)`, so a key exists exactly when at
least one token was appended for it.  It is modelled as an association list in
insertion order, with `ddAppend` for one `append`. -/

/-- `self.dependencies[k].append(v)` on a `defaultdict(list)`. -/
def ddAppend (m : List (String × List String)) (k v : String) :
    List (String × List String) :=
  match m with
  | [] => [(k, [v])]
  | (k', l) :: rest =>
    if k' = k then (k', l ++ [v]) :: rest else (k', l) :: ddAppend rest k v

/-- The recording guard of the generic import loop: `resolved_path =
self._resolve_absolute_import(rel_path, match); if resolved_path:
self.dependencies[rel_path].append(resolved_path)` (a falsy `None` or empty
string is dropped). -/
def recordResolved (r : String → Option String) (raw : String) : Option String :=
  match r raw with
  | some p => if p = "" then none else some p
  | none => none

/-- All tokens appended for one readable file of a recognized language, in
order: the generic import matches (oracle `g`), each filtered through the
resolver, followed — for Terraform files — by the typed tokens of
`_analyze_terraform_dependencies`. -/
def fileTokens (g : String → String → List String) (r : String → Option String)
    (language content : String) : List String :=
  (g language content).filterMap (recordResolved r) ++
    (if language = "terraform" then terraformDeps r content else [])

/-- The resolver as `_analyze_dependencies` invokes it for one file. -/
def importResolver (ex : String → Bool) (localPath relPath : String) :
    String → Option String :=
  fun importName => resolveAbsoluteImport ex localPath relPath importName

/-- `os.path.relpath(os.path.join(root, file), self.local_path)`. -/
def relOf (cwd localPath root file : String) : String :=
  pyRelpath cwd (pyJoin root file) localPath

/-- The tokens recorded for the file `file` under walk root `root`:
empty when the extension has no language or the file is unreadable. -/
def tokensForFile (g : String → String → List String) (read : String → Option String)
    (ex : String → Bool) (cwd localPath root file : String) : List String :=
  match getLanguageFromExtension file with
  | none => []
  | some language =>
    match read (pyJoin root file) with
    | none => []
    | some content =>
      fileTokens g (importResolver ex localPath (relOf cwd localPath root file))
        language content

/-- The inner per-file body of `_analyze_dependencies`: append every recorded
token under the file's relative path. -/
def processFile (g : String → String → List String) (read : String → Option String)
    (ex : String → Bool) (cwd localPath : String)
    (m : List (String × List String)) (root file : String) :
    List (String × List String) :=
  (tokensForFile g read ex cwd localPath root file).foldl
    (fun m tok => ddAppend m (relOf cwd localPath root file) tok) m

/-- `_analyze_dependencies` over a walk: roots containing an ignored name as a
substring are skipped (`continue`), every file of the others is processed. -/
def analyzeDependencies (g : String → String → List String)
    (read : String → Option String) (ex : String → Bool) (cwd localPath : String)
    (walk : List (String × List String)) : List (String × List String) :=
  walk.foldl (fun m e =>
    if depSkipRoot e.1 then m
    else e.2.foldl (fun m file => processFile g read ex cwd localPath m e.1 file) m) []

/-! ## The extension histogram (`_count_file_types`) -/

/-- `extensions[ext] = extensions.get(ext, 0) + 1` on a Python dictionary
(first insertion fixes the position). -/
def incrKey (m : List (String × Nat)) (k : String) : List (String × Nat) :=
  match m with
  | [] => [(k, 1)]
  | (k', n) :: rest =>
    if k' = k then (k', n + 1) :: rest else (k', n) :: incrKey rest k

/-- `_count_file_types`: a fresh walk with the same substring-based root skip,
counting every file by lowercased extension and dropping extensionless
files (`if ext:`). -/
def countFileTypes (walk : List (String × List String)) : List (String × Nat) :=
  walk.foldl (fun exts e =>
    if depSkipRoot e.1 then exts
    else e.2.foldl (fun exts file =>
      let ext := pyLower (pySplitextExt file)
      if ext = "" then exts else incrKey exts ext) exts) []

/-! ## The structure builder (`_build_file_structure`)

The nested Python dictionaries are modelled by `PyVal`: a node is either a
dictionary (association list in insertion order) or the plain list of
dependency strings stored under a `"dependencies"` key. -/

inductive PyVal where
  | dict : List (String × PyVal) → PyVal
  | strlist : List String → PyVal

/-- Association-list lookup (Python `part in current` / `current[part]`). -/
def lookupKey : List (String × PyVal) → String → Option PyVal
  | [], _ => none
  | (k', v) :: rest, k => if k' = k then some v else lookupKey rest k

/-- Python dictionary assignment `d[k] = v`: replace in place or append. -/
def setKey : List (String × PyVal) → String → PyVal → List (String × PyVal)
  | [], k, v => [(k, v)]
  | (k', v') :: rest, k, v =>
    if k' = k then (k', v) :: rest else (k', v') :: setKey rest k v

/-- `set_nested_dict(d, path, key, value)`: walk `path`, creating empty
dictionaries for missing components, then assign `value` under `key`.
(Descending into a non-dictionary would raise in Python; the model leaves the
value unchanged, which is unreachable for well-formed walks.) -/
def setNested (t : PyVal) (path : List String) (k : String) (v : PyVal) : PyVal :=
  match t, path with
  | .dict es, [] => .dict (setKey es k v)
  | .dict es, p :: ps =>
    let child := (lookupKey es p).getD (.dict [])
    .dict (setKey es p (setNested child ps k v))
  | .strlist l, _ => .strlist l

/-- `rel_path.split(os.sep)` with the `'.'` special case of
`_build_file_structure`. -/
def pathPartsOf (cwd localPath root : String) : List String :=
  let relPath := pyRelpath cwd root localPath
  if relPath = "." then [] else splitSlashStr relPath

/-- `_build_file_structure` over the (already pruned) structure walk: every
file becomes `{"dependencies": deps}` when its dependency list is non-empty
and `{}` otherwise, inserted at its directory's path parts. -/
def buildFileStructure (deps : List (String × List String)) (cwd localPath : String)
    (walk : List (String × List String)) : PyVal :=
  walk.foldl (fun st e =>
    let pathParts := pathPartsOf cwd localPath e.1
    e.2.foldl (fun st file =>
      let fileDeps := (List.lookup (relOf cwd localPath e.1 file) deps).getD []
      if fileDeps ≠ [] then
        setNested st pathParts file (.dict [("dependencies", .strlist fileDeps)])
      else
        setNested st pathParts file (.dict [])) st) (.dict [])

/-- Is a dictionary value itself a dictionary (`isinstance(value, dict)`)? -/
def isDictVal : PyVal → Bool
  | .dict _ => true
  | .strlist _ => false

/-- `any(k for k in value.keys() if isinstance(value[k], dict))` — the
directory test shared by `_count_files` and `_count_directories`. -/
def hasDictChild (es : List (String × PyVal)) : Bool :=
  es.any (fun kv => isDictVal kv.2)

/-- The file classification of `_count_files`: a dictionary node with no
dictionary-valued child. -/
def isFileNodeB (es : List (String × PyVal)) : Bool :=
  !(hasDictChild es)

/-- The directory classification of `_count_directories`. -/
def isDirNodeB (es : List (String × PyVal)) : Bool :=
  hasDictChild es

/-- The node reached by following a key path in the nested structure. -/
def nodeAt (t : PyVal) (q : List String) : Option PyVal :=
  match t, q with
  | v, [] => some v
  | .dict es, k :: ks =>
    match lookupKey es k with
    | some c => nodeAt c ks
    | none => none
  | .strlist _, _ :: _ => none

/-! ## `analyze_repo` -/

structure AnalyzerState where
  localPath : Option String
  fileStructure : PyVal
  dependencies : List (String × List String)

/-- `analyze_repo`: fail (returning `False`, touching nothing) when
`self.local_path` is falsy or does not exist; otherwise run the dependency
pass and then the structure pass. -/
def analyzeRepo (g : String → String → List String) (read : String → Option String)
    (ex : String → Bool) (cwd : String)
    (walkDep walkStruct : List (String × List String)) (st : AnalyzerState) :
    Bool × AnalyzerState :=
  match st.localPath with
  | none => (false, st)
  | some lp =>
    if lp = "" then (false, st)
    else if ex lp = false then (false, st)
    else
      let deps := analyzeDependencies g read ex cwd lp walkDep
      (true,
        { st with
          dependencies := deps
          fileStructure := buildFileStructure deps cwd lp walkStruct })

/-- Association-list lookup with default `0`, for reading the histogram. -/
def lookupNat : List (String × Nat) → String → Nat
  | [], _ => 0
  | (k', n) :: rest, k => if k' = k then n else lookupNat rest k

/-- Association-list lookup on the dependency map. -/
def lookupDeps : List (String × List String) → String → Option (List String)
  | [], _ => none
  | (k', l) :: rest, k => if k' = k then some l else lookupDeps rest k

/-- Does a dependency token carry one of the four Terraform tags? -/
def isTypedToken (tok : String) : Bool :=
  ["module:", "resource:", "data:", "var:"].any (fun tag => tag.data.isPrefixOf tok.data)

/-! ## Concrete filesystem oracles for the resolver counterexamples -/

/-- Filesystem for the package-index counterexample: at base
`repo/sub/pkg` the direct `.js` candidate and the Python package index both
exist, but no direct `.py` candidate does. -/
def exC3 (p : String) : Bool :=
  p = "repo/sub/pkg/__init__.py" || p = "repo/sub/pkg.js"

/-- Files of the model filesystem for the resolver-result counterexample. -/
def tfFilesC7 : List String := ["repo/main.tf"]

/-- Directories of the model filesystem for the resolver-result
counterexample: the working directory `.` (the parent of `repo`) and the
repository root itself. -/
def tfDirsC7 : List String := [".", "repo"]

/-- `os.path.exists` is true for files and directories alike. -/
def exC7 (p : String) : Bool := tfFilesC7.contains p || tfDirsC7.contains p

/-- The two shapes a freshly inserted file node can take. -/
def FileVal (v : PyVal) : Prop :=
  v = .dict [] ∨ ∃ l, v = .dict [("dependencies", .strlist l)]

/-- Well-shaped nodes: every dictionary is either exactly a file node carrying
a dependency list, or a directory node all of whose children are well-shaped
dictionaries under keys other than `"dependencies"`. -/
inductive Good : PyVal → Prop where
  | str (l : List String) : Good (.strlist l)
  | file (l : List String) : Good (.dict [("dependencies", .strlist l)])
  | dir (es : List (String × PyVal))
      (hk : ∀ kv ∈ es, kv.1 ≠ "dependencies")
      (hd : ∀ kv ∈ es, ∃ es', kv.2 = PyVal.dict es')
      (hg : ∀ kv ∈ es, Good kv.2) : Good (.dict es)

/-- A dictionary node carrying a `"dependencies"` key. -/
def DepsNode (v : PyVal) : Prop :=
  ∃ es, v = PyVal.dict es ∧ lookupKey es "dependencies" ≠ none

/-- Every `"dependencies"`-carrying node of `t` sits at a path in `done`. -/
def Loc (t : PyVal) (done : List (List String)) : Prop :=
  ∀ q v, nodeAt t q = some v → DepsNode v → q ∈ done

/-- Strip the leading component `p` from the recorded paths. -/
def shiftDone (p : String) (done : List (List String)) : List (List String) :=
  done.filterMap (fun q =>
    match q with
    | [] => none
    | x :: xs => if x = p then some xs else none)

/-- The full component path (directory parts plus file name) of every file in
the walk. -/
def pathsOfWalk (cwd localPath : String) (walk : List (String × List String)) :
    List (List String) :=
  walk.flatMap (fun e => e.2.map (fun f => pathPartsOf cwd localPath e.1 ++ [f]))

/-! ## Shared helper lemmas -/

theorem data_append (a b : String) : (a ++ b).data = a.data ++ b.data := rfl

theorem strContains_go_iff (n : List Char) :
    ∀ h, strContains.go n h = true ↔ n <:+: h := by
  intro h
  induction h with
  | nil =>
    simp [strContains.go, List.isEmpty_iff, List.infix_nil]
  | cons c t ih =>
    simp [strContains.go, List.infix_cons_iff, ih, List.isPrefixOf_iff_prefix]

theorem strContains_iff (hay needle : String) :
    strContains hay needle = true ↔ needle.data <:+: hay.data := by
  simpa [strContains] using strContains_go_iff needle.data hay.data

theorem foldl_fixed {α β : Type} (f : β → α → β) (l : List α)
    (h : ∀ b, ∀ a ∈ l, f b a = b) : ∀ b, l.foldl f b = b := by
  induction l with
  | nil => intro b; rfl
  | cons a t ih =>
    intro b
    rw [List.foldl_cons, h b a (by simp)]
    exact ih (fun b' a' ha' => h b' a' (by simp [ha'])) b

theorem foldl_eq_foldl_filter {α β : Type} (p : α → Bool) (f : β → α → β)
    (hf : ∀ b a, p a = false → f b a = b) :
    ∀ (l : List α) (b : β), l.foldl f b = (l.filter p).foldl f b := by
  intro l
  induction l with
  | nil => intro b; rfl
  | cons a t ih =>
    intro b
    by_cases hp : p a = true
    · rw [List.foldl_cons, List.filter_cons_of_pos hp, List.foldl_cons, ih]
    · rw [List.foldl_cons, hf b a (by simpa using hp),
        List.filter_cons_of_neg (by simpa using hp), ih]

theorem foldl_preserve {α β : Type} (P : β → Prop) (f : β → α → β) (l : List α)
    (hf : ∀ b, ∀ a ∈ l, P b → P (f b a)) : ∀ b, P b → P (l.foldl f b) := by
  induction l with
  | nil => intro b hb; exact hb
  | cons a t ih =>
    intro b hb
    rw [List.foldl_cons]
    exact ih (fun b' a' ha' => hf b' a' (by simp [ha'])) _ (hf b a (by simp) hb)

theorem ite_empty_dot_ne_empty (s : String) : (if s = "" then "." else s) ≠ "" := by
  split_ifs with h
  · decide
  · exact h

theorem pyNormpath_ne_empty (p : String) : pyNormpath p ≠ "" := by
  unfold pyNormpath
  split_ifs <;> first | decide | assumption | exact ite_empty_dot_ne_empty _

/-! ## C9 — missing repository path -/

/-- C9: if the repository path is unset (or the empty string) or does not
exist, `analyze_repo` returns `False` and the analyzer's state — file
structure and dependency map — is unchanged. -/
theorem c9_missing_path_returns_false
    (g : String → String → List String) (read : String → Option String)
    (ex : String → Bool) (cwd : String)
    (wd ws : List (String × List String)) (st : AnalyzerState)
    (h : st.localPath = none ∨ st.localPath = some "" ∨
      ∃ lp, st.localPath = some lp ∧ ex lp = false) :
    analyzeRepo g read ex cwd wd ws st = (false, st) := by
  rcases h with h | h | ⟨lp, h, hex⟩
  · simp [analyzeRepo, h]
  · simp [analyzeRepo, h]
  · simp only [analyzeRepo, h]
    split_ifs with h1
    · rfl
    · rfl

theorem c9_missing_path_witness :
    analyzeRepo (fun _ _ => []) (fun _ => none) (fun _ => false) "/w" [] []
      ⟨some "repo", .dict [], []⟩ =
      (false, ⟨some "repo", .dict [], []⟩) :=
  c9_missing_path_returns_false _ _ _ _ _ _ _ (Or.inr (Or.inr ⟨"repo", rfl, rfl⟩))

/-! ## C1 — the two walks do not exclude the same directories -/

/-- C1 (counterexample): on a repository with subdirectories `.vscode` and
`myvenv`, the directory `.vscode` is pruned from the structure walk but its
root is processed by the dependency pass, while `myvenv` is kept by the
structure walk but skipped by the dependency pass — so the two walks do not
exclude the same directories, and the dependency pass does not use the
exact-name-or-dot-prefix rule. -/
theorem c1_walks_differ_cex :
    (((walkFullFuel 3 "repo"
        (.node "repo" [.node ".vscode" [] ["a.py"], .node "myvenv" [] ["b.py"]] [])).map
          Prod.fst).contains "repo/.vscode" = true ∧
      depSkipRoot "repo/.vscode" = false) ∧
    ((walkStructFuel 3 "repo"
        (.node "repo" [.node ".vscode" [] ["a.py"], .node "myvenv" [] ["b.py"]] [])).map
          Prod.fst).contains "repo/.vscode" = false ∧
    ((walkStructFuel 3 "repo"
        (.node "repo" [.node ".vscode" [] ["a.py"], .node "myvenv" [] ["b.py"]] [])).map
          Prod.fst).contains "repo/myvenv" = true ∧
    depSkipRoot "repo/myvenv" = true := by decide

/-- C1 (amended): a directory whose name exactly matches a configured ignored
name is excluded by both walks — the structure walk prunes it, and any walk
root containing it is skipped by the dependency pass — but the two rules are
otherwise different: the structure walk additionally prunes dot-prefixed
names, while the dependency pass skips a directory iff some ignored name
occurs as a substring of its full walk path. -/
theorem c1_amended_exact_name_excluded_by_both (d : String) (hd : d ∈ ignoredDirs) :
    structKeep d = false ∧ ∀ pre post : String, depSkipRoot (pre ++ d ++ post) = true := by
  constructor
  · fin_cases hd <;> decide
  · intro pre post
    unfold depSkipRoot
    rw [List.any_eq_true]
    refine ⟨d, hd, ?_⟩
    rw [strContains_iff, data_append, data_append]
    exact ⟨pre.data, post.data, rfl⟩

theorem c1_amended_witness :
    "venv" ∈ ignoredDirs ∧ structKeep "venv" = false ∧
      depSkipRoot ("repo/my" ++ "venv" ++ "2") = true :=
  ⟨by decide, (c1_amended_exact_name_excluded_by_both "venv" (by decide)).1,
    (c1_amended_exact_name_excluded_by_both "venv" (by decide)).2 "repo/my" "2"⟩

/-! ## C10 — substring-based skipping in the dependency pass and histogram -/

/-- C10: the dependency pass and the file-type histogram skip a walk root
exactly when some configured ignored name occurs as a substring anywhere in
the root's full path (entries failing `depSkipRoot` can be filtered away with
no effect); in particular, when the repository root's own path contains an
ignored name as a substring and every walk root extends the repository root,
the dependency map and the histogram are both empty, while the structure
builder — which performs no such substring check — still builds the tree (shown
on the root path `"myvenv"`, which contains ignored `"venv"`). -/
theorem c10_substring_skip
    (g : String → String → List String) (read : String → Option String)
    (ex : String → Bool) (cwd lp : String) (walk : List (String × List String))
    (ig : String) (hig : ig ∈ ignoredDirs) (hsub : strContains lp ig = true)
    (hpre : ∀ e ∈ walk, lp.data.isPrefixOf (Prod.fst e).data = true) :
    (∀ walk' : List (String × List String),
      analyzeDependencies g read ex cwd lp walk' =
        analyzeDependencies g read ex cwd lp
          (walk'.filter (fun e => !depSkipRoot e.1)) ∧
      countFileTypes walk' =
        countFileTypes (walk'.filter (fun e => !depSkipRoot e.1))) ∧
    analyzeDependencies g read ex cwd lp walk = [] ∧
    countFileTypes walk = [] ∧
    buildFileStructure [] "/w" "myvenv" [("myvenv", ["main.py"])] =
      .dict [("main.py", .dict [])] := by
  have hskip : ∀ e ∈ walk, depSkipRoot e.1 = true := by
    intro e he
    unfold depSkipRoot
    rw [List.any_eq_true]
    refine ⟨ig, hig, ?_⟩
    rw [strContains_iff]
    exact ((strContains_iff lp ig).mp hsub).trans
      (List.IsPrefix.isInfix (List.isPrefixOf_iff_prefix.mp (hpre e he)))
  refine ⟨?_, ?_, ?_, rfl⟩
  · intro walk'
    constructor
    · exact foldl_eq_foldl_filter _ _
        (fun b a ha => by
          have : depSkipRoot a.1 = true := by simpa using ha
          simp [this]) walk' []
    · exact foldl_eq_foldl_filter _ _
        (fun b a ha => by
          have : depSkipRoot a.1 = true := by simpa using ha
          simp [this]) walk' []
  · exact foldl_fixed _ walk
      (fun b a ha => by simp [hskip a ha]) []
  · exact foldl_fixed _ walk
      (fun b a ha => by simp [hskip a ha]) []

theorem c10_substring_skip_witness :
    ("venv" ∈ ignoredDirs ∧ strContains "myvenv" "venv" = true) ∧
    analyzeDependencies (fun _ _ => ["os"]) (fun _ => some "import os")
      (fun _ => true) "/w" "myvenv" [("myvenv", ["a.py"])] = [] ∧
    countFileTypes [("myvenv", ["a.py"])] = [] :=
  ⟨⟨by decide, by decide⟩,
    (c10_substring_skip (fun _ _ => ["os"]) (fun _ => some "import os")
      (fun _ => true) "/w" "myvenv" [("myvenv", ["a.py"])] "venv"
      (by decide) (by decide) (by decide)).2.1,
    (c10_substring_skip (fun _ _ => ["os"]) (fun _ => some "import os")
      (fun _ => true) "/w" "myvenv" [("myvenv", ["a.py"])] "venv"
      (by decide) (by decide) (by decide)).2.2.1⟩

/-! ## Resolver helper lemmas -/

theorem tryExt_eq_some {ex : String → Bool} {b e r : String}
    (h : tryExt ex b e = some r) : ∃ p, ex p = true ∧ r = pyNormpath p := by
  unfold tryExt at h
  by_cases h1 : ex (b ++ e) = true
  · rw [if_pos h1] at h
    exact ⟨b ++ e, h1, (Option.some.inj h).symm⟩
  · rw [if_neg h1] at h
    by_cases h2 : e = ".py" ∨ e = ".js"
    · rw [if_pos h2] at h
      dsimp only at h
      by_cases h3 : ex (pyJoin b (if e = ".py" then "__init__.py" else "index.js")) = true
      · rw [if_pos h3] at h
        exact ⟨_, h3, (Option.some.inj h).symm⟩
      · rw [if_neg h3] at h
        exact Option.noConfusion h
    · rw [if_neg h2] at h
      exact Option.noConfusion h

theorem resolve_shape {ex : String → Bool} {lp src imp r : String}
    (h : resolveAbsoluteImport ex lp src imp = some r) :
    (∃ p, ex p = true ∧ (r = pyNormpath p ∨ r = p)) ∧ ∃ q, r = pyNormpath q := by
  unfold resolveAbsoluteImport at h
  dsimp only at h
  rcases hfs : List.findSome?
      (fun basePath => possibleExtensions.findSome? (fun ext => tryExt ex basePath ext))
      [pyJoin (pyDirname (sourceFileAbs lp src)) (dotsToSep imp),
        pyJoin lp (dotsToSep imp)] with _ | p'
  · rw [hfs] at h
    dsimp only at h
    split_ifs at h with hd hex
    · have hr : r = pyNormpath (pyJoin (pyDirname (sourceFileAbs lp src)) imp) :=
        (Option.some.inj h).symm
      exact ⟨⟨pyNormpath (pyJoin (pyDirname (sourceFileAbs lp src)) imp), hex,
        Or.inr hr⟩, _, hr⟩
  · rw [hfs] at h
    dsimp only at h
    have hr : r = p' := (Option.some.inj h).symm
    subst hr
    obtain ⟨base, _, hinner⟩ := List.exists_of_findSome?_eq_some hfs
    obtain ⟨e, _, htry⟩ := List.exists_of_findSome?_eq_some hinner
    obtain ⟨p, hexp, hp⟩ := tryExt_eq_some htry
    exact ⟨⟨p, hexp, Or.inl hp⟩, p, hp⟩

theorem resolveAbsoluteImport_ne_empty {ex : String → Bool} {lp src imp r : String}
    (h : resolveAbsoluteImport ex lp src imp = some r) : r ≠ "" := by
  obtain ⟨-, q, hq⟩ := resolve_shape h
  exact hq ▸ pyNormpath_ne_empty q

/-! ## C2 — base A is searched before base B -/

/-- C2: when a candidate target exists relative to the source file's own
directory (base A, with some known extension) and also relative to the
repository root (base B), the resolver's answer is the base-A search result:
the whole extension loop runs at base A before base B is consulted. -/
theorem c2_source_dir_precedence (ex : String → Bool) (lp src imp : String)
    (hA : ∃ e ∈ possibleExtensions,
      ex (pyJoin (pyDirname (sourceFileAbs lp src)) (dotsToSep imp) ++ e) = true)
    (hB : ∃ e ∈ possibleExtensions,
      ex (pyJoin lp (dotsToSep imp) ++ e) = true) :
    resolveAbsoluteImport ex lp src imp =
      possibleExtensions.findSome?
        (fun ext => tryExt ex (pyJoin (pyDirname (sourceFileAbs lp src)) (dotsToSep imp)) ext) ∧
    (possibleExtensions.findSome?
        (fun ext => tryExt ex (pyJoin (pyDirname (sourceFileAbs lp src)) (dotsToSep imp)) ext)).isSome
      = true := by
  have hsome : (possibleExtensions.findSome?
      (fun ext => tryExt ex (pyJoin (pyDirname (sourceFileAbs lp src)) (dotsToSep imp)) ext)).isSome
        = true := by
    rw [List.findSome?_isSome_iff]
    obtain ⟨e, he, hex1⟩ := hA
    exact ⟨e, he, by simp [tryExt, hex1]⟩
  obtain ⟨r, hr⟩ := Option.isSome_iff_exists.mp hsome
  refine ⟨?_, hsome⟩
  unfold resolveAbsoluteImport
  dsimp only
  rw [List.findSome?_cons]
  rw [hr]

theorem c2_source_dir_precedence_witness :
    resolveAbsoluteImport (fun p => p = "repo/sub/util.py" || p = "repo/util.py")
        "repo" "sub/m.py" "util" = some "repo/sub/util.py" ∧
    (fun p => p = "repo/sub/util.py" || p = "repo/util.py")
        (pyJoin (pyDirname (sourceFileAbs "repo" "sub/m.py")) (dotsToSep "util") ++ ".py")
      = true := by
  have h := c2_source_dir_precedence
    (fun p => p = "repo/sub/util.py" || p = "repo/util.py") "repo" "sub/m.py" "util"
    (⟨".py", by decide, by decide⟩) (⟨".py", by decide, by decide⟩)
  exact ⟨h.1.trans (by decide), by decide⟩

/-! ## C3 — the package-index check is interleaved, not deferred -/

/-- C3 (counterexample): at base `repo/sub/pkg` a direct-file candidate with
extension `.js` exists, yet the resolver returns the package index
`repo/sub/pkg/__init__.py`, because the `.py` package check runs before the
`.js` direct check. -/
theorem c3_package_index_cex :
    exC3 (pyJoin (pyDirname (sourceFileAbs "repo" "sub/a.py")) (dotsToSep "pkg") ++ ".js")
      = true ∧
    resolveAbsoluteImport exC3 "repo" "sub/a.py" "pkg" =
      some "repo/sub/pkg/__init__.py" := by decide

/-- C3 (amended): within a base, the package-index fallback for a
package-style extension is tried immediately after that extension's direct
file test — so whenever the direct `.py` candidate is missing but
`<base>/<candidate>/__init__.py` exists, the resolver returns the package
index, regardless of direct candidates with later extensions. -/
theorem c3_amended_interleaved_package_check (ex : String → Bool) (lp src imp : String)
    (hpy : ex (pyJoin (pyDirname (sourceFileAbs lp src)) (dotsToSep imp) ++ ".py") = false)
    (hinit : ex (pyJoin (pyJoin (pyDirname (sourceFileAbs lp src)) (dotsToSep imp))
      "__init__.py") = true) :
    resolveAbsoluteImport ex lp src imp =
      some (pyNormpath (pyJoin (pyJoin (pyDirname (sourceFileAbs lp src)) (dotsToSep imp))
        "__init__.py")) := by
  have h1 : tryExt ex (pyJoin (pyDirname (sourceFileAbs lp src)) (dotsToSep imp)) ".py" =
      some (pyNormpath (pyJoin (pyJoin (pyDirname (sourceFileAbs lp src)) (dotsToSep imp))
        "__init__.py")) := by
    unfold tryExt
    rw [if_neg (by simp [hpy]), if_pos (by simp)]
    dsimp only
    rw [if_pos (by simpa using hinit)]
    simp
  unfold resolveAbsoluteImport
  dsimp only
  rw [List.findSome?_cons]
  have h2 : List.findSome?
      (fun ext => tryExt ex (pyJoin (pyDirname (sourceFileAbs lp src)) (dotsToSep imp)) ext)
      possibleExtensions =
      some (pyNormpath (pyJoin (pyJoin (pyDirname (sourceFileAbs lp src)) (dotsToSep imp))
        "__init__.py")) := by
    show List.findSome? _ (".py" :: _) = _
    rw [List.findSome?_cons]
    rw [h1]
  rw [h2]

theorem c3_amended_witness :
    resolveAbsoluteImport exC3 "repo" "sub/a.py" "pkg" =
      some (pyNormpath (pyJoin (pyJoin (pyDirname (sourceFileAbs "repo" "sub/a.py"))
        (dotsToSep "pkg")) "__init__.py")) :=
  c3_amended_interleaved_package_check exC3 "repo" "sub/a.py" "pkg" (by decide) (by decide)

/-! ## C7 — what a successful resolution actually guarantees -/

/-- C7 (counterexample): on a filesystem whose only file is `repo/main.tf`
and whose directories are `.` and `repo`, resolving the import `..` from
`main.tf` succeeds with `"."` — a relative path that is not a file of the
model filesystem and lies outside the repository tree. -/
theorem c7_resolver_outside_cex :
    resolveAbsoluteImport exC7 "repo" "main.tf" ".." = some "." ∧
    tfFilesC7.contains "." = false ∧
    ("repo/").data.isPrefixOf (".").data = false ∧ ("." : String) ≠ "repo" := by decide

/-- C7 (amended): when the resolver succeeds, the returned value is the
`normpath`-normal form of some path at which `os.path.exists` returned true —
an existing file **or directory** — and it is non-empty; it need not be
absolute, need not be a file, and need not lie inside the repository. -/
theorem c7_amended_resolver_success_existing_path (ex : String → Bool)
    (lp src imp r : String) (h : resolveAbsoluteImport ex lp src imp = some r) :
    (∃ p, ex p = true ∧ (r = pyNormpath p ∨ r = p)) ∧ r ≠ "" :=
  ⟨(resolve_shape h).1, resolveAbsoluteImport_ne_empty h⟩

theorem c7_amended_witness :
    (∃ p, exC7 p = true ∧ (("." : String) = pyNormpath p ∨ ("." : String) = p)) ∧
      ("." : String) ≠ "" :=
  c7_amended_resolver_success_existing_path exC7 "repo" "main.tf" ".." "." (by decide)

/-! ## C4 — the Terraform extraction scenario -/

/-- C4: on the scenario content — one `module "vpc"` block with source
`./modules/vpc`, one `resource "aws_vpc" "main"` block, one
`data "aws_ami" "ubuntu"` block and two `var.cidr_block` occurrences — the
per-file token list is the generic-extraction tokens followed by exactly one
`module:vpc:<path>` token (present iff `./modules/vpc` resolves), exactly one
`resource:aws_vpc:main`, exactly one `data:aws_ami:ubuntu` and exactly two
`var:cidr_block` tokens, in that relative order. -/
theorem c4_terraform_extraction_scenario (g : String → String → List String)
    (ex : String → Bool) (lp rel : String) :
    fileTokens g (importResolver ex lp rel) "terraform" tfScenarioContent =
      (g "terraform" tfScenarioContent).filterMap
        (recordResolved (importResolver ex lp rel)) ++
      ((match importResolver ex lp rel "./modules/vpc" with
        | some p => ["module:vpc:" ++ p]
        | none => []) ++
       ["resource:aws_vpc:main", "data:aws_ami:ubuntu", "var:cidr_block",
        "var:cidr_block"]) := by
  unfold fileTokens
  rw [if_pos rfl]
  congr 1
  unfold terraformDeps
  rw [show findModuleBlocks tfScenarioContent =
        [("vpc", "\n  source = \"./modules/vpc\"\n")] from by decide,
    show findResourceBlocks tfScenarioContent = [("aws_vpc", "main")] from by decide,
    show findDataBlocks tfScenarioContent = [("aws_ami", "ubuntu")] from by decide,
    show findVarRefs tfScenarioContent = ["cidr_block", "cidr_block"] from by decide]
  simp only [List.filterMap_cons, List.filterMap_nil, List.map_cons, List.map_nil]
  rw [show findSourceAttr "\n  source = \"./modules/vpc\"\n" = some "./modules/vpc"
    from by decide]
  cases hres : importResolver ex lp rel "./modules/vpc" with
  | none => simp [hres]
  | some p =>
    have hne : p ≠ "" := resolveAbsoluteImport_ne_empty
      (show resolveAbsoluteImport ex lp rel "./modules/vpc" = some p from hres)
    simp [hres, hne]

/-! ## C8 — the file-type histogram -/

theorem lookupNat_incrKey (k q : String) :
    ∀ m, lookupNat (incrKey m k) q =
      if k = q then lookupNat m q + 1 else lookupNat m q := by
  intro m
  induction m with
  | nil =>
    by_cases h : k = q <;> simp [incrKey, lookupNat, h]
  | cons a rest ih =>
    obtain ⟨k', n⟩ := a
    simp only [incrKey]
    by_cases h1 : k' = k
    · rw [if_pos h1]
      subst h1
      by_cases h2 : k' = q <;> simp [lookupNat, h2]
    · rw [if_neg h1]
      simp only [lookupNat]
      by_cases h2 : k' = q
      · have hkq : ¬ k = q := fun hh => h1 (h2.trans hh.symm)
        simp [h2, hkq]
      · simp [h2, ih]

theorem mem_incrKey {k : String} :
    ∀ {m : List (String × Nat)}, ∀ kv ∈ incrKey m k, kv.1 = k ∨ kv ∈ m := by
  intro m
  induction m with
  | nil =>
    intro kv h
    simp only [incrKey, List.mem_singleton] at h
    exact Or.inl (by rw [h])
  | cons a rest ih =>
    obtain ⟨k', n⟩ := a
    intro kv h
    simp only [incrKey] at h
    by_cases h1 : k' = k
    · rw [if_pos h1] at h
      rcases List.mem_cons.mp h with h2 | h2
      · exact Or.inl (by rw [h2, h1])
      · exact Or.inr (List.mem_cons_of_mem _ h2)
    · rw [if_neg h1] at h
      rcases List.mem_cons.mp h with h2 | h2
      · exact Or.inr (by rw [h2]; exact List.mem_cons_self _ _)
      · rcases ih kv h2 with h3 | h3
        · exact Or.inl h3
        · exact Or.inr (List.mem_cons_of_mem _ h3)

theorem files_count (q : String) (hq : q ≠ "") :
    ∀ (files : List String) (m : List (String × Nat)),
      lookupNat (files.foldl (fun exts file =>
        let ext := pyLower (pySplitextExt file)
        if ext = "" then exts else incrKey exts ext) m) q =
      lookupNat m q + files.countP (fun f => pyLower (pySplitextExt f) == q) := by
  intro files
  induction files with
  | nil => intro m; simp
  | cons f fs ih =>
    intro m
    rw [List.foldl_cons, List.countP_cons]
    dsimp only
    by_cases h : pyLower (pySplitextExt f) = ""
    · rw [if_pos h, ih]
      have hb : (pyLower (pySplitextExt f) == q) = false := by
        rw [h]; exact beq_false_of_ne (Ne.symm hq)
      simp [hb]
    · rw [if_neg h, ih, lookupNat_incrKey]
      by_cases h2 : pyLower (pySplitextExt f) = q
      · rw [if_pos h2, if_pos (by simp [h2])]
        omega
      · rw [if_neg h2, if_neg (by simp [h2])]
        omega

theorem walk_count (q : String) (hq : q ≠ "") :
    ∀ (walk : List (String × List String)) (m : List (String × Nat)),
      lookupNat (walk.foldl (fun exts e =>
        if depSkipRoot e.1 then exts
        else e.2.foldl (fun exts file =>
          let ext := pyLower (pySplitextExt file)
          if ext = "" then exts else incrKey exts ext) exts) m) q =
      lookupNat m q +
        ((walk.filter (fun e => !depSkipRoot e.1)).flatMap (fun e => e.2)).countP
          (fun f => pyLower (pySplitextExt f) == q) := by
  intro walk
  induction walk with
  | nil => intro m; simp
  | cons e rest ih =>
    intro m
    rw [List.foldl_cons]
    by_cases h : depSkipRoot e.1 = true
    · rw [if_pos h, ih]
      simp [List.filter_cons, h]
    · rw [if_neg h, ih, files_count q hq]
      have hfilter : (!depSkipRoot e.1) = true := by simp [h]
      simp [List.filter_cons, hfilter, List.countP_append]
      omega

/-- C8: for every non-empty lowercased extension `q`, the histogram's count
for `q` equals the number of files with that extension among all files of the
non-skipped walk roots — including extensions the language classifier does not
recognize — and the key `""` (extensionless files) never appears in the
histogram. -/
theorem c8_file_type_histogram (walk : List (String × List String)) (q : String) (hq : q ≠ "") :
    lookupNat (countFileTypes walk) q =
      ((walk.filter (fun e => !depSkipRoot e.1)).flatMap (fun e => e.2)).countP
        (fun f => pyLower (pySplitextExt f) == q) ∧
    ∀ kv ∈ countFileTypes walk, kv.1 ≠ "" := by
  constructor
  · have := walk_count q hq walk []
    simpa [countFileTypes, lookupNat] using this
  · unfold countFileTypes
    refine foldl_preserve (fun (m : List (String × Nat)) => ∀ kv ∈ m, kv.1 ≠ "") _ walk ?_ [] (by simp)
    intro b a _ hb
    by_cases h : depSkipRoot a.1 = true
    · simpa [h] using hb
    · rw [if_neg h]
      refine foldl_preserve (fun (m : List (String × Nat)) => ∀ kv ∈ m, kv.1 ≠ "") _ a.2 ?_ b hb
      intro b' f _ hb'
      dsimp only
      by_cases h2 : pyLower (pySplitextExt f) = ""
      · simpa [h2] using hb'
      · rw [if_neg h2]
        intro kv hkv
        rcases mem_incrKey kv hkv with h3 | h3
        · rw [h3]; exact h2
        · exact hb' kv h3

theorem c8_file_type_histogram_witness :
    (".tf" : String) ≠ "" ∧
    lookupNat (countFileTypes
        [("repo", ["a.tf", "b.tf", "c.tf", "d.md", "e.md", "README"])]) ".tf" =
      (([("repo", ["a.tf", "b.tf", "c.tf", "d.md", "e.md", "README"])].filter
          (fun e => !depSkipRoot e.1)).flatMap (fun e => e.2)).countP
        (fun f => pyLower (pySplitextExt f) == ".tf") ∧
    countFileTypes [("repo", ["a.tf", "b.tf", "c.tf", "d.md", "e.md", "README"])] =
      [(".tf", 3), (".md", 2)] :=
  ⟨by decide,
    (c8_file_type_histogram
      [("repo", ["a.tf", "b.tf", "c.tf", "d.md", "e.md", "README"])] ".tf" (by decide)).1,
    by decide⟩

/-! ## C5 — dependency-map token and absence invariants -/

theorem lookupDeps_ddAppend (k v q : String) :
    ∀ m, lookupDeps (ddAppend m k v) q =
      if k = q then some ((lookupDeps m q).getD [] ++ [v]) else lookupDeps m q := by
  intro m
  induction m with
  | nil => by_cases h : k = q <;> simp [ddAppend, lookupDeps, h]
  | cons a rest ih =>
    obtain ⟨k', l⟩ := a
    simp only [ddAppend]
    by_cases h1 : k' = k
    · rw [if_pos h1]
      subst h1
      by_cases h2 : k' = q <;> simp [lookupDeps, h2]
    · rw [if_neg h1]
      simp only [lookupDeps]
      by_cases h2 : k' = q
      · have hkq : ¬ k = q := fun hh => h1 (h2.trans hh.symm)
        simp [h2, hkq]
      · simp [h2, ih]

theorem isPrefixOf_append_self {α : Type} [BEq α] [LawfulBEq α] (l t : List α) :
    l.isPrefixOf (l ++ t) = true := by
  simp [List.isPrefixOf_iff_prefix]

theorem isTypedToken_append (tag rest : String)
    (h : tag ∈ ["module:", "resource:", "data:", "var:"]) :
    isTypedToken (tag ++ rest) = true := by
  unfold isTypedToken
  rw [List.any_eq_true]
  exact ⟨tag, h, by rw [data_append]; exact isPrefixOf_append_self _ _⟩

theorem terraformDeps_typed (r : String → Option String) (content : String) :
    ∀ tok ∈ terraformDeps r content, isTypedToken tok = true := by
  intro tok htok
  unfold terraformDeps at htok
  simp only [List.mem_append] at htok
  rcases htok with ((h | h) | h) | h
  · obtain ⟨nb, _, hf⟩ := List.mem_filterMap.mp h
    rcases h1 : findSourceAttr nb.2 with _ | src <;> rw [h1] at hf <;> dsimp only at hf
    · exact Option.noConfusion hf
    · rcases h2 : r src with _ | p <;> rw [h2] at hf <;> dsimp only at hf
      · exact Option.noConfusion hf
      · by_cases h3 : p = ""
        · rw [if_pos h3] at hf; exact Option.noConfusion hf
        · rw [if_neg h3] at hf
          rw [← Option.some.inj hf, String.append_assoc, String.append_assoc]
          exact isTypedToken_append _ _ (by simp)
  · obtain ⟨tn, _, hf⟩ := List.mem_map.mp h
    rw [← hf, String.append_assoc, String.append_assoc]
    exact isTypedToken_append _ _ (by simp)
  · obtain ⟨tn, _, hf⟩ := List.mem_map.mp h
    rw [← hf, String.append_assoc, String.append_assoc]
    exact isTypedToken_append _ _ (by simp)
  · obtain ⟨v, _, hf⟩ := List.mem_map.mp h
    rw [← hf]
    exact isTypedToken_append _ _ (by simp)

theorem fileTokens_good (g : String → String → List String) (ex : String → Bool)
    (lp rel lang content : String) :
    ∀ tok ∈ fileTokens g (importResolver ex lp rel) lang content,
      (∃ r i, resolveAbsoluteImport ex lp r i = some tok) ∨ isTypedToken tok = true := by
  intro tok h
  unfold fileTokens at h
  rcases List.mem_append.mp h with h | h
  · obtain ⟨raw, _, hf⟩ := List.mem_filterMap.mp h
    unfold recordResolved at hf
    rcases h1 : importResolver ex lp rel raw with _ | p <;> rw [h1] at hf <;> dsimp only at hf
    · exact Option.noConfusion hf
    · by_cases h2 : p = ""
      · rw [if_pos h2] at hf; exact Option.noConfusion hf
      · rw [if_neg h2] at hf
        exact Or.inl ⟨rel, raw, (Option.some.inj hf) ▸ h1⟩
  · by_cases hl : lang = "terraform"
    · rw [if_pos hl] at h
      exact Or.inr (terraformDeps_typed _ _ tok h)
    · rw [if_neg hl] at h
      exact absurd h (by simp)

theorem ddAppend_foldl_good (k : String) (P : String → Prop)
    (toks : List String) (hg : ∀ tok ∈ toks, P tok) :
    ∀ m, (∀ q l, lookupDeps m q = some l → l ≠ [] ∧ ∀ tok ∈ l, P tok) →
      ∀ q l, lookupDeps (toks.foldl (fun m tok => ddAppend m k tok) m) q = some l →
        l ≠ [] ∧ ∀ tok ∈ l, P tok := by
  induction toks with
  | nil => intro m hm; exact hm
  | cons t ts ih =>
    intro m hm
    rw [List.foldl_cons]
    refine ih (fun tok htok => hg tok (by simp [htok])) _ ?_
    intro q l hq
    rw [lookupDeps_ddAppend] at hq
    by_cases h : k = q
    · rw [if_pos h] at hq
      rw [← Option.some.inj hq]
      constructor
      · simp
      · intro tok htok
        rcases List.mem_append.mp htok with h2 | h2
        · rcases hold : lookupDeps m q with _ | l' <;> rw [hold] at h2
          · simp at h2
          · exact (hm q l' hold).2 tok (by simpa using h2)
        · rw [List.mem_singleton.mp h2]
          exact hg t (by simp)
    · rw [if_neg h] at hq
      exact hm q l hq

theorem analyzeDependencies_good (g : String → String → List String)
    (read : String → Option String) (ex : String → Bool) (cwd lp : String)
    (walk : List (String × List String)) :
    ∀ q l, lookupDeps (analyzeDependencies g read ex cwd lp walk) q = some l →
      l ≠ [] ∧ ∀ tok ∈ l,
        (∃ r i, resolveAbsoluteImport ex lp r i = some tok) ∨ isTypedToken tok = true := by
  unfold analyzeDependencies
  refine foldl_preserve
    (fun (m : List (String × List String)) => ∀ q l, lookupDeps m q = some l →
      l ≠ [] ∧ ∀ tok ∈ l,
        (∃ r i, resolveAbsoluteImport ex lp r i = some tok) ∨ isTypedToken tok = true)
    _ walk ?_ [] (by intro q l hq; exact absurd hq (by simp [lookupDeps]))
  intro m e _ hm
  by_cases h : depSkipRoot e.1 = true
  · simpa [h] using hm
  · rw [if_neg h]
    refine foldl_preserve
      (fun (m : List (String × List String)) => ∀ q l, lookupDeps m q = some l →
        l ≠ [] ∧ ∀ tok ∈ l,
          (∃ r i, resolveAbsoluteImport ex lp r i = some tok) ∨ isTypedToken tok = true)
      _ e.2 ?_ m hm
    intro m' f _ hm'
    unfold processFile
    rcases hlang : getLanguageFromExtension f with _ | language
    · simpa [tokensForFile, hlang] using hm'
    · rcases hread : read (pyJoin e.1 f) with _ | content
      · simpa [tokensForFile, hlang, hread] using hm'
      · have htoks : tokensForFile g read ex cwd lp e.1 f =
            fileTokens g (importResolver ex lp (relOf cwd lp e.1 f)) language content := by
          simp [tokensForFile, hlang, hread]
        rw [htoks]
        exact ddAppend_foldl_good _ _ _
          (fileTokens_good g ex lp (relOf cwd lp e.1 f) language content) m' hm'

theorem lookupDeps_foldl_ddAppend_ne {k q : String} (hne : ¬ k = q) :
    ∀ (toks : List String) (m : List (String × List String)),
      lookupDeps (toks.foldl (fun m tok => ddAppend m k tok) m) q = lookupDeps m q := by
  intro toks
  induction toks with
  | nil => intro m; rfl
  | cons t ts ih =>
    intro m
    rw [List.foldl_cons, ih, lookupDeps_ddAppend, if_neg hne]

theorem processFile_lookup_ne (g : String → String → List String)
    (read : String → Option String) (ex : String → Bool) (cwd lp : String)
    (m : List (String × List String)) (root f q : String)
    (hne : ¬ relOf cwd lp root f = q) :
    lookupDeps (processFile g read ex cwd lp m root f) q = lookupDeps m q := by
  unfold processFile
  exact lookupDeps_foldl_ddAppend_ne hne _ m

theorem processFile_empty (g : String → String → List String)
    (read : String → Option String) (ex : String → Bool) (cwd lp : String)
    (m : List (String × List String)) (root f : String)
    (h : tokensForFile g read ex cwd lp root f = []) :
    processFile g read ex cwd lp m root f = m := by
  unfold processFile
  rw [h]
  rfl

theorem files_lookup_none (g : String → String → List String)
    (read : String → Option String) (ex : String → Bool) (cwd lp root q : String) :
    ∀ (files : List String) (m : List (String × List String)),
      lookupDeps m q = none →
      (∀ f ∈ files, relOf cwd lp root f = q →
        tokensForFile g read ex cwd lp root f = []) →
      lookupDeps (files.foldl (fun m file => processFile g read ex cwd lp m root file) m) q
        = none := by
  intro files
  induction files with
  | nil => intro m hm _; exact hm
  | cons f fs ih =>
    intro m hm hc
    rw [List.foldl_cons]
    refine ih _ ?_ (fun f' hf' => hc f' (by simp [hf']))
    by_cases hrel : relOf cwd lp root f = q
    · rw [processFile_empty g read ex cwd lp m root f (hc f (by simp) hrel)]
      exact hm
    · rw [processFile_lookup_ne g read ex cwd lp m root f q hrel]
      exact hm

theorem walk_lookup_none (g : String → String → List String)
    (read : String → Option String) (ex : String → Bool) (cwd lp q : String) :
    ∀ (walk : List (String × List String)) (m : List (String × List String)),
      lookupDeps m q = none →
      (∀ e ∈ walk, ∀ f ∈ e.2, relOf cwd lp e.1 f = q →
        tokensForFile g read ex cwd lp e.1 f = []) →
      lookupDeps (walk.foldl (fun m e =>
        if depSkipRoot e.1 then m
        else e.2.foldl (fun m file => processFile g read ex cwd lp m e.1 file) m) m) q
        = none := by
  intro walk
  induction walk with
  | nil => intro m hm _; exact hm
  | cons e rest ih =>
    intro m hm hc
    rw [List.foldl_cons]
    refine ih _ ?_ (fun e' he' => hc e' (by simp [he']))
    by_cases h : depSkipRoot e.1 = true
    · simpa [h] using hm
    · rw [if_neg h]
      exact files_lookup_none g read ex cwd lp e.1 q e.2 m hm (hc e (by simp))

/-- C5: every token in the dependency map is either a successful resolver
output or a tagged Terraform token (failed resolutions are silently dropped),
every stored token list is non-empty, and — when relative paths are unique
across the walk, as `os.walk` guarantees — a scanned file of a recognized
language whose extraction records no token is absent as a key from the map. -/
theorem c5_unresolved_dropped_and_empty_absent (g : String → String → List String)
    (read : String → Option String) (ex : String → Bool) (cwd lp : String)
    (walk : List (String × List String))
    (hinj : ∀ e ∈ walk, ∀ e' ∈ walk, ∀ f ∈ e.2, ∀ f' ∈ e'.2,
      relOf cwd lp e.1 f = relOf cwd lp e'.1 f' → e.1 = e'.1 ∧ f = f') :
    (∀ k toks, lookupDeps (analyzeDependencies g read ex cwd lp walk) k = some toks →
      toks ≠ [] ∧ ∀ tok ∈ toks,
        (∃ r i, resolveAbsoluteImport ex lp r i = some tok) ∨ isTypedToken tok = true) ∧
    (∀ e ∈ walk, ∀ f ∈ e.2, getLanguageFromExtension f ≠ none →
      tokensForFile g read ex cwd lp e.1 f = [] →
      lookupDeps (analyzeDependencies g read ex cwd lp walk) (relOf cwd lp e.1 f)
        = none) := by
  constructor
  · exact analyzeDependencies_good g read ex cwd lp walk
  · intro e he f hf _ htoks
    unfold analyzeDependencies
    refine walk_lookup_none g read ex cwd lp (relOf cwd lp e.1 f) walk []
      (by simp [lookupDeps]) ?_
    intro e' he' f' hf' hrel
    obtain ⟨h1, h2⟩ := hinj e' he' e he f' hf' f hf hrel
    rw [h1, h2]
    exact htoks

theorem c5_unresolved_dropped_witness :
    getLanguageFromExtension "a.py" ≠ none ∧
    tokensForFile (fun _ _ => []) (fun _ => some "") (fun _ => false)
      "/w" "repo" "repo" "a.py" = [] ∧
    lookupDeps (analyzeDependencies (fun _ _ => []) (fun _ => some "") (fun _ => false)
        "/w" "repo" [("repo", ["a.py", "b.xyz"])]) (relOf "/w" "repo" "repo" "a.py")
      = none :=
  ⟨by decide, by decide,
    (c5_unresolved_dropped_and_empty_absent (fun _ _ => []) (fun _ => some "") (fun _ => false) "/w" "repo"
        [("repo", ["a.py", "b.xyz"])] (by decide)).2
      ("repo", ["a.py", "b.xyz"]) (by decide) "a.py" (by decide) (by decide) (by decide)⟩

/-! ## C6 — the file-vs-directory structural invariant -/

theorem lookupKey_setKey (k : String) (v : PyVal) (q : String) :
    ∀ es, lookupKey (setKey es k v) q =
      if k = q then some v else lookupKey es q := by
  intro es
  induction es with
  | nil => by_cases h : k = q <;> simp [setKey, lookupKey, h]
  | cons a rest ih =>
    obtain ⟨k', v'⟩ := a
    simp only [setKey]
    by_cases h1 : k' = k
    · rw [if_pos h1]
      subst h1
      by_cases h2 : k' = q <;> simp [lookupKey, h2]
    · rw [if_neg h1]
      simp only [lookupKey]
      by_cases h2 : k' = q
      · have hkq : ¬ k = q := fun hh => h1 (h2.trans hh.symm)
        simp [h2, hkq]
      · simp [h2, ih]

theorem mem_setKey (k : String) (v : PyVal) :
    ∀ es, ∀ kv ∈ setKey es k v, kv = (k, v) ∨ kv ∈ es := by
  intro es
  induction es with
  | nil =>
    intro kv h
    simp only [setKey, List.mem_singleton] at h
    exact Or.inl h
  | cons a rest ih =>
    obtain ⟨k', v'⟩ := a
    intro kv h
    simp only [setKey] at h
    by_cases h1 : k' = k
    · rw [if_pos h1] at h
      rcases List.mem_cons.mp h with h2 | h2
      · exact Or.inl (by rw [h2, h1])
      · exact Or.inr (List.mem_cons_of_mem _ h2)
    · rw [if_neg h1] at h
      rcases List.mem_cons.mp h with h2 | h2
      · exact Or.inr (by rw [h2]; exact List.mem_cons_self _ _)
      · rcases ih kv h2 with h3 | h3
        · exact Or.inl h3
        · exact Or.inr (List.mem_cons_of_mem _ h3)

theorem lookupKey_mem {q : String} {v : PyVal} :
    ∀ {es}, lookupKey es q = some v → (q, v) ∈ es := by
  intro es
  induction es with
  | nil => intro h; exact Option.noConfusion h
  | cons a rest ih =>
    obtain ⟨k', v'⟩ := a
    intro h
    simp only [lookupKey] at h
    by_cases h1 : k' = q
    · rw [if_pos h1] at h
      rw [← h1, ← Option.some.inj h]
      exact List.mem_cons_self _ _
    · rw [if_neg h1] at h
      exact List.mem_cons_of_mem _ (ih h)

theorem lookupKey_eq_none (key : String) :
    ∀ es, (∀ kv ∈ es, kv.1 ≠ key) → lookupKey es key = none := by
  intro es
  induction es with
  | nil => intro _; rfl
  | cons a rest ih =>
    obtain ⟨k', v'⟩ := a
    intro h
    simp only [lookupKey]
    rw [if_neg (h (k', v') (List.mem_cons_self _ _))]
    exact ih (fun kv hkv => h kv (List.mem_cons_of_mem _ hkv))

theorem good_lookup {es : List (String × PyVal)} {a : String} {c : PyVal}
    (hg : Good (.dict es)) (hl : lookupKey es a = some c) :
    Good c ∧ (a ≠ "dependencies" → ∃ es', c = PyVal.dict es') := by
  cases hg with
  | file l =>
    simp only [lookupKey] at hl
    by_cases h : "dependencies" = a
    · rw [if_pos h] at hl
      refine ⟨(Option.some.inj hl) ▸ Good.str l, fun hne => absurd h.symm hne⟩
    · rw [if_neg h] at hl
      exact Option.noConfusion hl
  | dir es hk hd hg =>
    have hmem := lookupKey_mem hl
    exact ⟨hg _ hmem, fun _ => hd _ hmem⟩

theorem good_nodeAt {t v : PyVal} :
    ∀ {q : List String}, Good t → nodeAt t q = some v → Good v := by
  intro q
  induction q generalizing t with
  | nil =>
    intro hg h
    cases t <;> exact (Option.some.inj h) ▸ hg
  | cons a qs ih =>
    intro hg h
    cases t with
    | strlist l => exact Option.noConfusion h
    | dict es =>
      simp only [nodeAt] at h
      rcases hl : lookupKey es a with _ | c <;> rw [hl] at h
      · exact Option.noConfusion h
      · exact ih (good_lookup hg hl).1 h

theorem loc_child {es : List (String × PyVal)} {a : String} {c : PyVal}
    {done : List (List String)}
    (hloc : Loc (.dict es) done) (hl : lookupKey es a = some c) :
    Loc c (shiftDone a done) := by
  intro q v hq hd
  have : nodeAt (.dict es) (a :: q) = some v := by
    simp only [nodeAt, hl]
    exact hq
  have hmem := hloc _ _ this hd
  unfold shiftDone
  exact List.mem_filterMap.mpr ⟨a :: q, hmem, by simp⟩

theorem loc_empty_dict (done : List (List String)) : Loc (.dict []) done := by
  intro q v hq hd
  cases q with
  | nil =>
    obtain ⟨es, heq, hne⟩ := hd
    have hv : v = PyVal.dict [] := (Option.some.inj hq).symm
    rw [hv] at heq
    injection heq with h2
    rw [← h2] at hne
    exact absurd rfl hne
  | cons a qs =>
    simp only [nodeAt, lookupKey] at hq
    exact Option.noConfusion hq

theorem loc_mono {t : PyVal} {done done' : List (List String)}
    (hsub : ∀ q ∈ done, q ∈ done') (hloc : Loc t done) : Loc t done' := by
  intro q v hq hd
  exact hsub _ (hloc _ _ hq hd)

theorem fileVal_nodeAt {v₀ v : PyVal} (hfv : FileVal v₀) :
    ∀ {qs : List String}, nodeAt v₀ qs = some v → DepsNode v → qs = [] := by
  intro qs hq hd
  rcases hfv with h | ⟨l, h⟩ <;> subst h
  · cases qs with
    | nil => rfl
    | cons a qs' =>
      simp only [nodeAt, lookupKey] at hq
      exact Option.noConfusion hq
  · cases qs with
    | nil => rfl
    | cons a qs' =>
      simp only [nodeAt, lookupKey] at hq
      by_cases h1 : "dependencies" = a
      · rw [if_pos h1] at hq
        cases qs' with
        | nil =>
          obtain ⟨es, heq, _⟩ := hd
          rw [← Option.some.inj hq] at heq
          exact PyVal.noConfusion heq
        | cons b qs'' =>
          simp only [nodeAt] at hq
          exact Option.noConfusion hq
      · rw [if_neg h1] at hq
        exact Option.noConfusion hq

theorem setNested_isDict (parts : List String) (k : String) (v : PyVal) :
    ∀ es, ∃ es', setNested (.dict es) parts k v = .dict es' := by
  intro es
  cases parts <;> simp [setNested]

theorem shiftDone_mem {p : String} {qs : List String} {done : List (List String)}
    (h : qs ∈ shiftDone p done) : p :: qs ∈ done := by
  obtain ⟨q', hq', hmap⟩ := List.mem_filterMap.mp h
  cases q' with
  | nil => exact Option.noConfusion hmap
  | cons x xs =>
    simp only at hmap
    by_cases hx : x = p
    · rw [if_pos hx] at hmap
      rw [← hx, ← Option.some.inj hmap]
      exact hq'
    · rw [if_neg hx] at hmap
      exact Option.noConfusion hmap

theorem goodEmptyDir : Good (.dict []) :=
  Good.dir [] (by simp) (by simp) (by simp)

theorem fileVal_good {v₀ : PyVal} (hfv : FileVal v₀) : Good v₀ := by
  rcases hfv with h | ⟨l, h⟩ <;> rw [h]
  · exact goodEmptyDir
  · exact Good.file l

theorem fileVal_isDict {v₀ : PyVal} (hfv : FileVal v₀) : ∃ es, v₀ = PyVal.dict es := by
  rcases hfv with h | ⟨l, h⟩ <;> exact ⟨_, h⟩

theorem setNested_preserves :
    ∀ (parts : List String) (t : PyVal) (done : List (List String)) (k : String) (v₀ : PyVal),
      Good t → Loc t done →
      (∀ q ∈ done, q.isPrefixOf parts = false) →
      "dependencies" ∉ parts → k ≠ "dependencies" → FileVal v₀ →
      Good (setNested t parts k v₀) ∧
        Loc (setNested t parts k v₀) ((parts ++ [k]) :: done) := by
  intro parts
  induction parts with
  | nil =>
    intro t done k v₀ hg hloc hpre hdp hk hfv
    cases t with
    | strlist l =>
      exact ⟨hg, loc_mono (fun q hq => List.mem_cons_of_mem _ hq) hloc⟩
    | dict es =>
      cases hg with
      | file l =>
        exfalso
        have hd : DepsNode (.dict [("dependencies", PyVal.strlist l)]) :=
          ⟨_, rfl, by simp [lookupKey]⟩
        have h1 := hloc [] _ rfl hd
        have h2 := hpre [] h1
        simp at h2
      | dir es hk2 hd2 hg2 =>
      constructor
      · refine Good.dir _ ?_ ?_ ?_
        · intro kv hkv
          rcases mem_setKey _ _ _ kv hkv with h | h
          · rw [h]; exact hk
          · exact hk2 _ h
        · intro kv hkv
          rcases mem_setKey _ _ _ kv hkv with h | h
          · rw [h]; exact fileVal_isDict hfv
          · exact hd2 _ h
        · intro kv hkv
          rcases mem_setKey _ _ _ kv hkv with h | h
          · rw [h]; exact fileVal_good hfv
          · exact hg2 _ h
      · intro q v hq hd
        simp only [setNested] at hq
        cases q with
        | nil =>
          exfalso
          obtain ⟨es', heq, hne⟩ := hd
          rw [← Option.some.inj hq] at heq
          injection heq with h2
          rw [← h2, lookupKey_setKey, if_neg hk] at hne
          exact hne (lookupKey_eq_none _ _ hk2)
        | cons a qs =>
          simp only [nodeAt] at hq
          rw [lookupKey_setKey] at hq
          by_cases hak : k = a
          · rw [if_pos hak] at hq
            have hqs := fileVal_nodeAt hfv hq hd
            subst hqs
            subst hak
            exact List.mem_cons_self _ _
          · rw [if_neg hak] at hq
            have hmem : nodeAt (.dict es) (a :: qs) = some v := by
              simp only [nodeAt]
              exact hq
            exact List.mem_cons_of_mem _ (hloc _ _ hmem hd)
  | cons p ps ih =>
    intro t done k v₀ hg hloc hpre hdp hk hfv
    cases t with
    | strlist l =>
      exact ⟨hg, loc_mono (fun q hq => List.mem_cons_of_mem _ hq) hloc⟩
    | dict es =>
      cases hg with
      | file l =>
        exfalso
        have hd : DepsNode (.dict [("dependencies", PyVal.strlist l)]) :=
          ⟨_, rfl, by simp [lookupKey]⟩
        have h1 := hloc [] _ rfl hd
        have h2 := hpre [] h1
        simp at h2
      | dir es hk2 hd2 hg2 =>
      have hdp_head : p ≠ "dependencies" :=
        fun h => hdp (by rw [← h]; exact List.mem_cons_self _ _)
      have hdp_tail : "dependencies" ∉ ps := fun h => hdp (List.mem_cons_of_mem _ h)
      have hcd : ∃ esc, (lookupKey es p).getD (.dict []) = PyVal.dict esc := by
        rcases hlk : lookupKey es p with _ | c
        · exact ⟨[], rfl⟩
        · obtain ⟨es', he⟩ := (good_lookup (Good.dir es hk2 hd2 hg2) hlk).2 hdp_head
          exact ⟨es', by simp [he]⟩
      have hchild : Good ((lookupKey es p).getD (.dict [])) ∧
          Loc ((lookupKey es p).getD (.dict [])) (shiftDone p done) := by
        rcases hlk : lookupKey es p with _ | c
        · exact ⟨goodEmptyDir, loc_empty_dict _⟩
        · exact ⟨(good_lookup (Good.dir es hk2 hd2 hg2) hlk).1, loc_child hloc hlk⟩
      have hpre' : ∀ q ∈ shiftDone p done, q.isPrefixOf ps = false := by
        intro q hq
        have hmem := shiftDone_mem hq
        have := hpre _ hmem
        simpa using this
      obtain ⟨hgN, hlocN⟩ := ih ((lookupKey es p).getD (.dict []))
        (shiftDone p done) k v₀ hchild.1 hchild.2 hpre' hdp_tail hk hfv
      have hres : setNested (PyVal.dict es) (p :: ps) k v₀ =
          .dict (setKey es p (setNested ((lookupKey es p).getD (.dict [])) ps k v₀)) := rfl
      rw [hres]
      constructor
      · refine Good.dir _ ?_ ?_ ?_
        · intro kv hkv
          rcases mem_setKey _ _ _ kv hkv with h | h
          · rw [h]; exact hdp_head
          · exact hk2 _ h
        · intro kv hkv
          rcases mem_setKey _ _ _ kv hkv with h | h
          · rw [h]
            obtain ⟨esc, hc⟩ := hcd
            rw [hc]
            exact setNested_isDict ps k v₀ esc
          · exact hd2 _ h
        · intro kv hkv
          rcases mem_setKey _ _ _ kv hkv with h | h
          · rw [h]; exact hgN
          · exact hg2 _ h
      · intro q v hq hd
        cases q with
        | nil =>
          exfalso
          obtain ⟨es', heq, hne⟩ := hd
          rw [← Option.some.inj hq] at heq
          injection heq with h2
          rw [← h2, lookupKey_setKey, if_neg hdp_head] at hne
          exact hne (lookupKey_eq_none _ _ hk2)
        | cons a qs =>
          simp only [nodeAt] at hq
          rw [lookupKey_setKey] at hq
          by_cases hap : p = a
          · rw [if_pos hap] at hq
            rcases List.mem_cons.mp (hlocN qs v hq hd) with h | h
            · subst hap
              rw [h]
              exact List.mem_cons_self _ _
            · subst hap
              exact List.mem_cons_of_mem _ (shiftDone_mem h)
          · rw [if_neg hap] at hq
            have hmem : nodeAt (.dict es) (a :: qs) = some v := by
              simp only [nodeAt]
              exact hq
            exact List.mem_cons_of_mem _ (hloc _ _ hmem hd)

theorem build_files_good (deps : List (String × List String)) (cwd lp : String)
    (parts : List String) (F : List (List String)) (root : String)
    (hparts : ∀ fp ∈ F, fp.isPrefixOf parts = false)
    (hd1 : "dependencies" ∉ parts) :
    ∀ (files : List String) (t : PyVal) (done : List (List String)),
      Good t → Loc t done → (∀ q ∈ done, q ∈ F) →
      (∀ f ∈ files, f ≠ "dependencies") →
      (∀ f ∈ files, parts ++ [f] ∈ F) →
      ∃ done',
        Good (files.foldl (fun st file =>
          let fileDeps := (List.lookup (relOf cwd lp root file) deps).getD []
          if fileDeps ≠ [] then
            setNested st parts file (.dict [("dependencies", .strlist fileDeps)])
          else setNested st parts file (.dict [])) t) ∧
        Loc (files.foldl (fun st file =>
          let fileDeps := (List.lookup (relOf cwd lp root file) deps).getD []
          if fileDeps ≠ [] then
            setNested st parts file (.dict [("dependencies", .strlist fileDeps)])
          else setNested st parts file (.dict [])) t) done' ∧
        ∀ q ∈ done', q ∈ F := by
  intro files
  induction files with
  | nil =>
    intro t done hg hloc hdone _ _
    exact ⟨done, hg, hloc, hdone⟩
  | cons f fs ih =>
    intro t done hg hloc hdone hfd hfF
    rw [List.foldl_cons]
    have hstep : ∃ v₀, FileVal v₀ ∧
        (let fileDeps := (List.lookup (relOf cwd lp root f) deps).getD []
         if fileDeps ≠ [] then
           setNested t parts f (.dict [("dependencies", .strlist fileDeps)])
         else setNested t parts f (.dict [])) = setNested t parts f v₀ := by
      by_cases h : (List.lookup (relOf cwd lp root f) deps).getD [] ≠ []
      · exact ⟨.dict [("dependencies",
          .strlist ((List.lookup (relOf cwd lp root f) deps).getD []))],
          Or.inr ⟨_, rfl⟩, by simp only [if_pos h]⟩
      · exact ⟨.dict [], Or.inl rfl, by simp only [if_neg h]⟩
    obtain ⟨v₀, hfv, heq⟩ := hstep
    rw [heq]
    obtain ⟨hgN, hlocN⟩ := setNested_preserves parts t done f v₀ hg hloc
      (fun q hq => hparts q (hdone q hq)) hd1 (hfd f (List.mem_cons_self _ _)) hfv
    exact ih (setNested t parts f v₀) ((parts ++ [f]) :: done) hgN hlocN
      (by
        intro q hq
        rcases List.mem_cons.mp hq with h | h
        · rw [h]; exact hfF f (List.mem_cons_self _ _)
        · exact hdone q h)
      (fun f' hf' => hfd f' (List.mem_cons_of_mem _ hf'))
      (fun f' hf' => hfF f' (List.mem_cons_of_mem _ hf'))

theorem build_walk_good (deps : List (String × List String)) (cwd lp : String)
    (F : List (List String)) :
    ∀ (w : List (String × List String)) (t : PyVal) (done : List (List String)),
      Good t → Loc t done → (∀ q ∈ done, q ∈ F) →
      (∀ e ∈ w, ∀ fp ∈ F, fp.isPrefixOf (pathPartsOf cwd lp e.1) = false) →
      (∀ e ∈ w, "dependencies" ∉ pathPartsOf cwd lp e.1) →
      (∀ e ∈ w, ∀ f ∈ e.2, f ≠ "dependencies") →
      (∀ e ∈ w, ∀ f ∈ e.2, pathPartsOf cwd lp e.1 ++ [f] ∈ F) →
      ∃ done',
        Good (w.foldl (fun st e =>
          e.2.foldl (fun st file =>
            let fileDeps := (List.lookup (relOf cwd lp e.1 file) deps).getD []
            if fileDeps ≠ [] then
              setNested st (pathPartsOf cwd lp e.1) file
                (.dict [("dependencies", .strlist fileDeps)])
            else setNested st (pathPartsOf cwd lp e.1) file (.dict [])) st) t) ∧
        Loc (w.foldl (fun st e =>
          e.2.foldl (fun st file =>
            let fileDeps := (List.lookup (relOf cwd lp e.1 file) deps).getD []
            if fileDeps ≠ [] then
              setNested st (pathPartsOf cwd lp e.1) file
                (.dict [("dependencies", .strlist fileDeps)])
            else setNested st (pathPartsOf cwd lp e.1) file (.dict [])) st) t) done' ∧
        ∀ q ∈ done', q ∈ F := by
  intro w
  induction w with
  | nil =>
    intro t done hg hloc hdone _ _ _ _
    exact ⟨done, hg, hloc, hdone⟩
  | cons e rest ih =>
    intro t done hg hloc hdone hpf hd1 hd2 hF
    rw [List.foldl_cons]
    obtain ⟨done₁, hg₁, hloc₁, hsub₁⟩ := build_files_good deps cwd lp
      (pathPartsOf cwd lp e.1) F e.1
      (fun fp hfp => hpf e (List.mem_cons_self _ _) fp hfp)
      (hd1 e (List.mem_cons_self _ _)) e.2 t done hg hloc hdone
      (hd2 e (List.mem_cons_self _ _)) (hF e (List.mem_cons_self _ _))
    exact ih _ done₁ hg₁ hloc₁ hsub₁
      (fun e' he' => hpf e' (List.mem_cons_of_mem _ he'))
      (fun e' he' => hd1 e' (List.mem_cons_of_mem _ he'))
      (fun e' he' => hd2 e' (List.mem_cons_of_mem _ he'))
      (fun e' he' => hF e' (List.mem_cons_of_mem _ he'))

theorem buildFileStructure_good (deps : List (String × List String)) (cwd lp : String)
    (walk : List (String × List String))
    (hpf : ∀ fp ∈ pathsOfWalk cwd lp walk, ∀ e ∈ walk,
      fp.isPrefixOf (pathPartsOf cwd lp e.1) = false)
    (hd1 : ∀ e ∈ walk, "dependencies" ∉ pathPartsOf cwd lp e.1)
    (hd2 : ∀ e ∈ walk, ∀ f ∈ e.2, f ≠ "dependencies") :
    Good (buildFileStructure deps cwd lp walk) := by
  obtain ⟨done', hg, -, -⟩ := build_walk_good deps cwd lp (pathsOfWalk cwd lp walk)
    walk (.dict []) [] goodEmptyDir (loc_empty_dict _) (by simp)
    (fun e he fp hfp => hpf fp hfp e he) hd1 hd2
    (fun e he f hf => List.mem_flatMap.mpr ⟨e, he, List.mem_map.mpr ⟨f, hf, rfl⟩⟩)
  exact hg

/-- C6 (amended): provided no walked file or directory is named
`"dependencies"` and no file's full component path is a prefix of any walked
directory's path (both automatic for a real filesystem walk), every node of
the built structure carrying a `"dependencies"` key has no dictionary-valued
child, and the counting rule classifies every dictionary node as exactly one
of file or directory. -/
theorem c6_amended_structure_invariant (deps : List (String × List String)) (cwd lp : String)
    (walk : List (String × List String))
    (hpf : ∀ fp ∈ pathsOfWalk cwd lp walk, ∀ e ∈ walk,
      fp.isPrefixOf (pathPartsOf cwd lp e.1) = false)
    (hd1 : ∀ e ∈ walk, "dependencies" ∉ pathPartsOf cwd lp e.1)
    (hd2 : ∀ e ∈ walk, ∀ f ∈ e.2, f ≠ "dependencies") :
    ∀ q es, nodeAt (buildFileStructure deps cwd lp walk) q = some (.dict es) →
      (lookupKey es "dependencies" ≠ none → hasDictChild es = false) ∧
      (hasDictChild es = true → isDirNodeB es = true) ∧
      (isFileNodeB es = true ↔ ¬ isDirNodeB es = true) := by
  have hgood := buildFileStructure_good deps cwd lp walk hpf hd1 hd2
  intro q es hq
  refine ⟨?_, fun h => h, by simp [isFileNodeB, isDirNodeB]⟩
  intro hdep
  cases good_nodeAt hgood hq with
  | file l => simp [hasDictChild, isDictVal]
  | dir es hk2 hd2' hg2 => exact absurd (lookupKey_eq_none _ _ hk2) hdep

/-- C6 (counterexample): a repository containing a file literally named
`dependencies` makes the claim fail as stated — the built root node carries a
`"dependencies"` key (the file's entry) and has a dictionary-valued child. -/
theorem c6_dependencies_collision_cex :
    nodeAt (buildFileStructure [] "/w" "repo" [("repo", ["dependencies"])]) [] =
      some (.dict [("dependencies", PyVal.dict [])]) ∧
    lookupKey [("dependencies", PyVal.dict [])] "dependencies" ≠ none ∧
    hasDictChild [("dependencies", PyVal.dict [])] = true :=
  ⟨rfl, by simp [lookupKey], rfl⟩

theorem c6_amended_structure_witness :
    nodeAt (buildFileStructure [("a.py", ["repo/b.py"])] "/w" "repo"
        [("repo", ["a.py"]), ("repo/sub", ["b.py"])]) ["a.py"] =
      some (.dict [("dependencies", PyVal.strlist ["repo/b.py"])]) ∧
    (lookupKey [("dependencies", PyVal.strlist ["repo/b.py"])] "dependencies" ≠ none →
      hasDictChild [("dependencies", PyVal.strlist ["repo/b.py"])] = false) ∧
    (hasDictChild [("dependencies", PyVal.strlist ["repo/b.py"])] = true →
      isDirNodeB [("dependencies", PyVal.strlist ["repo/b.py"])] = true) ∧
    (isFileNodeB [("dependencies", PyVal.strlist ["repo/b.py"])] = true ↔
      ¬ isDirNodeB [("dependencies", PyVal.strlist ["repo/b.py"])] = true) :=
  ⟨rfl,
    (c6_amended_structure_invariant [("a.py", ["repo/b.py"])] "/w" "repo"
      [("repo", ["a.py"]), ("repo/sub", ["b.py"])]
      (by decide) (by decide) (by decide) ["a.py"] _ rfl).1,
    (c6_amended_structure_invariant [("a.py", ["repo/b.py"])] "/w" "repo"
      [("repo", ["a.py"]), ("repo/sub", ["b.py"])]
      (by decide) (by decide) (by decide) ["a.py"] _ rfl).2⟩
